import Mathlib

/-!
Verification development for a browser top-down zombie shooter.

The embedding translates the simulation core (entity classes, the engine's
per-frame pass, and the director's state machine and wave scheduling) into
plain Lean definitions.  Numeric values are rationals; JavaScript floats carry
no overflow or rounding relevant to the claims, every constant in the source
being a small decimal.  The few transcendental collaborators of the source
(Math.cos, Math.sin for the shotgun spread; Math.random for draws) are passed
in as function parameters, so every definition stays executable.
-/

namespace ZombieShooter

/-- 2D vector, from `Vector2D` in engine.ts (only the constructor-level data
the claims need; `normalize` involves `Math.sqrt` and is kept symbolic by
storing un-normalized direction arguments where the source passes them). -/
structure Vec2 where
  x : ℚ
  y : ℚ
deriving DecidableEq

/-- The three weapon keys of `Player.ammo` in entities (src/unnamed/part_000). -/
inductive Weapon where
  | pistol
  | shotgun
  | rifle
deriving DecidableEq

/-- An ammo pool entry: the source stores `Infinity` for the pistol and plain
numbers for the other weapons. -/
inductive Ammo where
  | inf : Ammo
  | fin : ℚ → Ammo
deriving DecidableEq

/-- `ammo[w] > 0` of the source; `Infinity > 0` is true. -/
def Ammo.isPos : Ammo → Bool
  | .inf => true
  | .fin q => decide (0 < q)

/-- `this.ammo[w]--` guarded by `!== Infinity`: infinite pools are unchanged. -/
def Ammo.dec : Ammo → Ammo
  | .inf => .inf
  | .fin q => .fin (q - 1)

/-- `this.ammo[w] += amount` guarded by `!== undefined && !== Infinity`. -/
def Ammo.add (a : Ammo) (q : ℚ) : Ammo :=
  match a with
  | .inf => .inf
  | .fin n => .fin (n + q)

/-- Bullet source tag, the `'player' | 'enemy'` strings of the source. -/
inductive Source where
  | player
  | enemy
deriving DecidableEq

/-- `Bullet` from part_000, at the level of its constructor arguments: the
source stores `velocity = direction.normalize().multiply(speed)`; normalization
divides by `Math.sqrt`, so the embedding keeps the `direction` argument and the
scalar `speed` separately (the data the constructor receives). -/
structure Bullet where
  x : ℚ
  y : ℚ
  width : ℚ := 5
  height : ℚ := 5
  dir : Vec2
  speed : ℚ
  damage : ℚ
  source : Source
  lifespan : ℚ := 2
  markedForDeletion : Bool := false
deriving DecidableEq

/-- `Player` from part_000.  Field initializers follow the class field
initializers of the source; in particular `shootCooldownMax` starts at `0.2`
and `weaponType` at `'pistol'`. -/
structure Player where
  x : ℚ
  y : ℚ
  width : ℚ := 40
  height : ℚ := 40
  speed : ℚ := 200
  health : ℚ := 100
  maxHealth : ℚ := 100
  direction : Vec2 := ⟨1, 0⟩
  shootCooldown : ℚ := 0
  shootCooldownMax : ℚ := 1/5
  weaponType : Weapon := .pistol
  ammoPistol : Ammo := .inf
  ammoShotgun : Ammo := .fin 20
  ammoRifle : Ammo := .fin 30
  markedForDeletion : Bool := false
deriving DecidableEq

/-- `new Player(x, y, sprite)`: the constructor only sets position and the
40x40 size, every other field keeping its initializer. -/
def mkPlayer (x y : ℚ) : Player :=
  { x := x, y := y }

/-- Read of `this.ammo[w]`. -/
def Player.ammoOf (p : Player) : Weapon → Ammo
  | .pistol => p.ammoPistol
  | .shotgun => p.ammoShotgun
  | .rifle => p.ammoRifle

/-- Write of `this.ammo[w]`. -/
def Player.setAmmo (p : Player) (w : Weapon) (a : Ammo) : Player :=
  match w with
  | .pistol => { p with ammoPistol := a }
  | .shotgun => { p with ammoShotgun := a }
  | .rifle => { p with ammoRifle := a }

/-- `Player.canShoot`: `shootCooldown <= 0 && ammo[weaponType] > 0`. -/
def Player.canShoot (p : Player) : Bool :=
  decide (p.shootCooldown ≤ 0) && (p.ammoOf p.weaponType).isPos

/-- `weaponDamage` table of the Player class. -/
def weaponDamage : Weapon → ℚ
  | .pistol => 25
  | .shotgun => 15
  | .rifle => 40

/-- The `switch` in `Player.switchWeapon` assigning `shootCooldownMax`. -/
def weaponCooldownMax : Weapon → ℚ
  | .pistol => 2/5
  | .shotgun => 4/5
  | .rifle => 3/20

/-- `Player.switchWeapon`: every `Weapon` value is a key of `ammo`, so the
`!== undefined` guard always passes on this domain. -/
def Player.switchWeapon (p : Player) (w : Weapon) : Player :=
  { p with weaponType := w, shootCooldownMax := weaponCooldownMax w }

/-- `Player.takeDamage`: clamp at 0, then mark for deletion at `health <= 0`. -/
def Player.takeDamage (p : Player) (amount : ℚ) : Player :=
  let h := max 0 (p.health - amount)
  { p with health := h,
           markedForDeletion := if h ≤ 0 then true else p.markedForDeletion }

/-- `Player.heal`: clamp at `maxHealth`. -/
def Player.heal (p : Player) (amount : ℚ) : Player :=
  { p with health := min p.maxHealth (p.health + amount) }

/-- `Player.addAmmo`. -/
def Player.addAmmo (p : Player) (w : Weapon) (amount : ℚ) : Player :=
  p.setAmmo w ((p.ammoOf w).add amount)

/-- `Player.update`: tick the shoot cooldown down while positive. -/
def Player.update (p : Player) (dt : ℚ) : Player :=
  if 0 < p.shootCooldown then { p with shootCooldown := p.shootCooldown - dt } else p

/-- `const bulletSpeed = 500` local of `Player.shoot`. -/
def bulletSpeed : ℚ := 500

/-- `(Math.random() - 0.5) * 0.5`, the per-pellet shotgun spread angle. -/
def spreadAngle (r : ℚ) : ℚ :=
  (r - 1/2) * (1/2)

/-- The rotation applied to `this.direction` by the shotgun branch, with the
values of `Math.cos spreadAngle` and `Math.sin spreadAngle` supplied. -/
def rotateDir (d : Vec2) (c s : ℚ) : Vec2 :=
  ⟨d.x * c - d.y * s, d.x * s + d.y * c⟩

/-- One shotgun pellet of `Player.shoot`, given the `Math.random()` draw `rv`
of its loop iteration and the trig collaborators. -/
def shotgunPellet (p : Player) (cosF sinF : ℚ → ℚ) (rv : ℚ) : Bullet :=
  let a := spreadAngle rv
  { x := p.x + p.width / 2, y := p.y + p.height / 2,
    dir := rotateDir p.direction (cosF a) (sinF a),
    speed := bulletSpeed, damage := weaponDamage .shotgun, source := .player }

/-- `Player.shoot`: guard by `canShoot`, reset the cooldown to the current
`shootCooldownMax`, decrement non-infinite ammo, then build the bullet list by
weapon.  `cosF`/`sinF` stand for `Math.cos`/`Math.sin`, and `rand i` is the
value of the i-th `Math.random()` call of the shotgun loop. -/
def Player.shoot (p : Player) (cosF sinF : ℚ → ℚ) (rand : ℕ → ℚ) :
    Player × List Bullet :=
  if p.canShoot then
    let p1 : Player := { p with shootCooldown := p.shootCooldownMax }
    let p2 : Player := p1.setAmmo p.weaponType ((p.ammoOf p.weaponType).dec)
    match p.weaponType with
    | .pistol =>
        (p2, [{ x := p.x + p.width / 2, y := p.y + p.height / 2,
                dir := p.direction, speed := bulletSpeed,
                damage := weaponDamage .pistol, source := .player }])
    | .shotgun =>
        (p2, (List.range 5).map fun i => shotgunPellet p cosF sinF (rand i))
    | .rifle =>
        (p2, [{ x := p.x + p.width / 2, y := p.y + p.height / 2,
                dir := p.direction, speed := bulletSpeed * (3/2),
                damage := weaponDamage .rifle, source := .player }])
  else (p, [])

/-- The `'normal' | 'fast' | 'tank'` zombie kinds. -/
inductive ZombieType where
  | normal
  | fast
  | tank
deriving DecidableEq

/-- `Zombie` from part_000.  `target` is the non-owning reference to the
pursued player (`null` when unset); the embedding stores the referenced
player's state in place of the reference. -/
structure Zombie where
  x : ℚ
  y : ℚ
  width : ℚ := 35
  height : ℚ := 35
  ztype : ZombieType
  speed : ℚ
  health : ℚ
  damage : ℚ
  target : Option Player := none
  attackCooldown : ℚ := 0
  attackCooldownMax : ℚ := 1
  markedForDeletion : Bool := false
deriving DecidableEq

/-- The per-type stat table of the `Zombie` constructor. -/
def mkZombie (x y : ℚ) (t : ZombieType) : Zombie :=
  match t with
  | .fast => { x := x, y := y, ztype := t, speed := 150, health := 50, damage := 5 }
  | .tank => { x := x, y := y, ztype := t, speed := 60, health := 200, damage := 20 }
  | .normal => { x := x, y := y, ztype := t, speed := 80, health := 100, damage := 10 }

/-- `Zombie.setTarget`. -/
def Zombie.setTarget (z : Zombie) (p : Player) : Zombie :=
  { z with target := some p }

/-- `Zombie.takeDamage`: no lower clamp; marks for deletion at `health <= 0`. -/
def Zombie.takeDamage (z : Zombie) (amount : ℚ) : Zombie :=
  let h := z.health - amount
  { z with health := h,
           markedForDeletion := if h ≤ 0 then true else z.markedForDeletion }

/-- The `other instanceof Player` branch of `Zombie.onCollision`: when the
attack cooldown has expired, `this.target?.takeDamage(this.damage)` damages the
stored target (a no-op when the reference is unset), and the cooldown is reset
unconditionally in that branch.  Returns the updated zombie (with its updated
target view) and the colliding player, which the handler itself never
mutates — damage reaches it only through the `target` alias when set. -/
def Zombie.onCollisionPlayer (z : Zombie) (other : Player) : Zombie × Player :=
  if z.attackCooldown ≤ 0 then
    ({ z with target := z.target.map (fun t => t.takeDamage z.damage),
              attackCooldown := z.attackCooldownMax }, other)
  else (z, other)

/-- The zombie-kind roll of `spawnZombie` in game.ts, given the wave number and
the single `Math.random()` draw: the source tests the `fast` guard first and
the `tank` guard only in its `else` branch. -/
def spawnZombieType (wave : ℕ) (rand : ℚ) : ZombieType :=
  if 3 ≤ wave ∧ rand < 1/5 then .fast
  else if 5 ≤ wave ∧ rand < 1/10 then .tank
  else .normal

/-! ### Engine: collision detection and the per-frame entity pass -/

/-- The positioned axis-aligned rectangle every `GameEntity` carries. -/
structure Rect where
  x : ℚ
  y : ℚ
  width : ℚ
  height : ℚ
deriving DecidableEq

instance : Inhabited Rect := ⟨⟨0, 0, 0, 0⟩⟩

/-- `GameEngine.isColliding`, the four-comparison rectangle overlap test. -/
def isColliding (a b : Rect) : Bool :=
  decide (a.x < b.x + b.width) && decide (a.x + a.width > b.x) &&
  decide (a.y < b.y + b.height) && decide (a.y + a.height > b.y)

/-- Inner loop of `GameEngine.checkCollisions` for a fixed outer index `i`,
with `j` running from its current value up to `n = entities.length` (the list
length is fixed for the pass: no handler adds or removes entities).  On an
overlap the source invokes `entityA.onCollision(entityB)` then
`entityB.onCollision(entityA)`; the event `(a, b)` records that the entity at
index `a` received `onCollision` with the entity at index `b` as argument, and
`h a b` is the handlers' combined effect on the geometry list (arbitrary,
covering the positional corrections of `Obstacle.onCollision`). -/
def collideInner (h : ℕ → ℕ → List Rect → List Rect) (n i : ℕ) :
    List Rect → ℕ → List Rect × List (ℕ × ℕ)
  | rs, j =>
    if j < n then
      if isColliding (rs.getD i default) (rs.getD j default) then
        let r := collideInner h n i (h i j rs) (j + 1)
        (r.1, (i, j) :: (j, i) :: r.2)
      else
        collideInner h n i rs (j + 1)
    else (rs, [])
termination_by _ j => n - j

/-- Outer loop of `GameEngine.checkCollisions`. -/
def collideOuter (h : ℕ → ℕ → List Rect → List Rect) (n : ℕ) :
    List Rect → ℕ → List Rect × List (ℕ × ℕ)
  | rs, i =>
    if i < n then
      let r := collideInner h n i rs (i + 1)
      let r2 := collideOuter h n r.1 (i + 1)
      (r2.1, r.2 ++ r2.2)
    else (rs, [])
termination_by _ i => n - i

/-- `GameEngine.checkCollisions`: both loops from the top, returning the final
geometry and the full `onCollision` invocation log. -/
def checkCollisions (h : ℕ → ℕ → List Rect → List Rect) (rs : List Rect) :
    List Rect × List (ℕ × ℕ) :=
  collideOuter h rs.length rs 0

/-- A geometry-effect function that leaves the list unchanged, for entity sets
whose handlers never move anything. -/
def pureHandlers : ℕ → ℕ → List Rect → List Rect := fun _ _ rs => rs

/-- A live entity as the prune pass sees it: an identity (JavaScript object
identity), the `markedForDeletion` flag, and the rest of its state. -/
structure EEnt (α : Type) where
  id : ℕ
  marked : Bool
  data : α
deriving DecidableEq

/-- `GameEngine.update`: run the collision phase (which may mark entities and
mutate state), then `entity.update(deltaTime)` on every entity still present,
then filter out every entity with `markedForDeletion == true` — the only
removal point of the frame.  `collide` abstracts the collision phase's total
effect on the entity list and `upd` the per-entity update. -/
def engineUpdatePass {α : Type} (collide : List (EEnt α) → List (EEnt α))
    (upd : EEnt α → EEnt α) (es : List (EEnt α)) : List (EEnt α) :=
  (((collide es).map upd).filter fun e => ! e.marked)

/-! ### Director: game states, frame dispatch, wave and spawn scheduling -/

/-- `gameState` values of `ZombieShooterGame`. -/
inductive GState where
  | loading
  | title
  | playing
  | paused
  | gameOver
deriving DecidableEq

/-- Director-level state: the `ZombieShooterGame` fields the claims are about,
plus the engine's `isPaused` flag and the player's deletion mark (read through
`this.player.isMarkedForDeletion()`).  `spawned` is instrumentation counting
the calls to `spawnZombie`. -/
structure GameSt where
  gameState : GState
  enginePaused : Bool
  playerMarked : Bool
  score : ℚ := 0
  wave : ℕ := 1
  zombiesRemaining : ℕ := 0
  spawnCooldown : ℚ := 0
  waveTimer : ℚ := 0
  pickupSpawnTimer : ℚ := 0
  spawned : ℕ := 0
deriving DecidableEq

/-- The per-frame input reads the director makes. -/
structure Input where
  escapeDown : Bool
  mouseDown : Bool
deriving DecidableEq

/-- `waveDelay = 5` seconds between waves. -/
def waveDelay : ℚ := 5

/-- `pickupSpawnInterval = 15` seconds. -/
def pickupSpawnInterval : ℚ := 15

/-- `Math.floor(baseZombies + this.wave * 2)` with `baseZombies = 5`. -/
def zombiesPerWave (wave : ℕ) : ℤ :=
  Int.floor ((5 : ℚ) + wave * 2)

/-- `startWave`: set the remaining count from the wave formula and clear the
spawn cooldown. -/
def startWave (s : GameSt) : GameSt :=
  { s with zombiesRemaining := (zombiesPerWave s.wave).toNat, spawnCooldown := 0 }

/-- `updateZombieSpawning`: while the cooldown is positive just tick it down;
otherwise spawn one zombie, decrement the remaining count, and set the next
cooldown to `1.5 - min(1.3, wave * 0.1)`. -/
def updateZombieSpawning (dt : ℚ) (s : GameSt) : GameSt :=
  if 0 < s.spawnCooldown then
    { s with spawnCooldown := s.spawnCooldown - dt }
  else if 0 < s.zombiesRemaining then
    { s with spawned := s.spawned + 1,
             zombiesRemaining := s.zombiesRemaining - 1,
             spawnCooldown := 3/2 - min (13/10) ((s.wave : ℚ) * (1/10)) }
  else s

/-- The wave section of `update`: with no zombies remaining accumulate the
wave timer and at `waveDelay` advance the wave (increment, `startWave`, timer
reset); otherwise run the spawner.  `zombiesRemaining <= 0` is `= 0` on ℕ. -/
def updateWaveLogic (dt : ℚ) (s : GameSt) : GameSt :=
  if s.zombiesRemaining = 0 then
    if waveDelay ≤ s.waveTimer + dt then
      { startWave { s with wave := s.wave + 1, waveTimer := s.waveTimer + dt } with
        waveTimer := 0 }
    else { s with waveTimer := s.waveTimer + dt }
  else updateZombieSpawning dt s

/-- `updatePickupSpawning`: accumulate and reset at the interval (the pickup
entity creation itself is outside this state). -/
def updatePickupSpawning (dt : ℚ) (s : GameSt) : GameSt :=
  if pickupSpawnInterval ≤ s.pickupSpawnTimer + dt then { s with pickupSpawnTimer := 0 }
  else { s with pickupSpawnTimer := s.pickupSpawnTimer + dt }

/-- `if (this.player.isMarkedForDeletion()) this.gameState = 'gameOver'`. -/
def gameDeathCheck (s : GameSt) : GameSt :=
  if s.playerMarked then { s with gameState := GState.gameOver } else s

/-- `if (this.input.isKeyDown('Escape')) { this.gameState = 'paused';
this.engine.pause(); }`. -/
def gamePauseCheck (inp : Input) (s : GameSt) : GameSt :=
  if inp.escapeDown then { s with gameState := GState.paused, enginePaused := true }
  else s

/-- `update` (the playing-state body in game.ts), in source order: player
input handling touches only the player entity, then wave logic, then pickup
spawning, then the death check setting `gameOver`, then the pause check
setting `paused` and pausing the engine. -/
def gameUpdate (dt : ℚ) (inp : Input) (s : GameSt) : GameSt :=
  gamePauseCheck inp (gameDeathCheck (updatePickupSpawning dt (updateWaveLogic dt s)))

/-- `startGame`: reset score/wave/timers, fresh player (unmarked), first wave,
state `playing`. -/
def startGame (s : GameSt) : GameSt :=
  let s1 : GameSt := { s with score := 0, wave := 1, waveTimer := 0,
                              pickupSpawnTimer := 0, playerMarked := false }
  { startWave s1 with gameState := GState.playing }

/-- `handlePauseScreenInput`: Escape resumes; otherwise a click restarts and
resumes (`engine.resume()` clears the paused flag). -/
def handlePauseScreenInput (inp : Input) (s : GameSt) : GameSt :=
  if inp.escapeDown then { s with gameState := GState.playing, enginePaused := false }
  else if inp.mouseDown then { startGame s with enginePaused := false }
  else s

/-- `handleTitleScreenInput`. -/
def handleTitleScreenInput (inp : Input) (s : GameSt) : GameSt :=
  if inp.mouseDown then startGame s else s

/-- `handleGameOverScreenInput`. -/
def handleGameOverScreenInput (inp : Input) (s : GameSt) : GameSt :=
  if inp.mouseDown then startGame s else s

/-- What a frame visibly did: whether the director's state dispatch ran at
all, and whether the paused branch rendered its screen and polled its input. -/
structure FrameLog where
  ranDispatch : Bool
  renderedPauseScreen : Bool
  polledPauseInput : Bool
deriving DecidableEq

/-- The `switch (this.gameState)` dispatch the director patches into the
engine's update: each state renders its screen and handles its input. -/
def gameLoopDispatch (dt : ℚ) (inp : Input) (s : GameSt) : GameSt × FrameLog :=
  match s.gameState with
  | .loading => (s, ⟨true, false, false⟩)
  | .title => (handleTitleScreenInput inp s, ⟨true, false, false⟩)
  | .playing => (gameUpdate dt inp s, ⟨true, false, false⟩)
  | .paused => (handlePauseScreenInput inp s, ⟨true, true, true⟩)
  | .gameOver => (handleGameOverScreenInput inp s, ⟨true, false, false⟩)

/-- One engine frame (`GameEngine.gameLoop`): when `isPaused` the frame
returns before any update, dispatch, or render; otherwise the patched update
runs (entity passes, then the director dispatch) and then the render. -/
def engineFrame (dt : ℚ) (inp : Input) (s : GameSt) : GameSt × FrameLog :=
  if s.enginePaused then (s, ⟨false, false, false⟩)
  else gameLoopDispatch dt inp s

/-- The state part of a frame. -/
def engineStep (dt : ℚ) (inp : Input) (s : GameSt) : GameSt :=
  (engineFrame dt inp s).1

/-- Number of `playing → gameOver` state changes along a run of frames from
`s` driven by the given per-frame delta-times and inputs. -/
def countPGRun (s : GameSt) : List (ℚ × Input) → ℕ
  | [] => 0
  | (dt, inp) :: rest =>
      (if s.gameState = GState.playing ∧ (engineStep dt inp s).gameState = GState.gameOver
       then 1 else 0) + countPGRun (engineStep dt inp s) rest

/-- Iterated wave logic over a list of frame delta-times. -/
def runWave (s : GameSt) : List ℚ → GameSt
  | [] => s
  | dt :: rest => runWave (updateWaveLogic dt s) rest

/-- A damage or heal call on the player, with its amount. -/
inductive POp where
  | damage : ℚ → POp
  | heal : ℚ → POp
deriving DecidableEq

/-- Amount carried by a player health operation. -/
def POp.amount : POp → ℚ
  | .damage q => q
  | .heal q => q

/-- Apply a sequence of `takeDamage` / `heal` calls. -/
def applyPOps (p : Player) : List POp → Player
  | [] => p
  | .damage q :: rest => applyPOps (p.takeDamage q) rest
  | .heal q :: rest => applyPOps (p.heal q) rest

/-! ### Helper lemmas -/

theorem setAmmo_shootCooldown (p : Player) (w : Weapon) (a : Ammo) :
    (p.setAmmo w a).shootCooldown = p.shootCooldown := by
  cases w <;> rfl

theorem setAmmo_shootCooldownMax (p : Player) (w : Weapon) (a : Ammo) :
    (p.setAmmo w a).shootCooldownMax = p.shootCooldownMax := by
  cases w <;> rfl

theorem updateWaveLogic_control (dt : ℚ) (s : GameSt) :
    (updateWaveLogic dt s).gameState = s.gameState ∧
    (updateWaveLogic dt s).enginePaused = s.enginePaused ∧
    (updateWaveLogic dt s).playerMarked = s.playerMarked := by
  unfold updateWaveLogic updateZombieSpawning startWave
  repeat' split
  all_goals exact ⟨rfl, rfl, rfl⟩

theorem updatePickupSpawning_control (dt : ℚ) (s : GameSt) :
    (updatePickupSpawning dt s).gameState = s.gameState ∧
    (updatePickupSpawning dt s).enginePaused = s.enginePaused ∧
    (updatePickupSpawning dt s).playerMarked = s.playerMarked := by
  unfold updatePickupSpawning
  split
  all_goals exact ⟨rfl, rfl, rfl⟩

theorem gameUpdate_control (dt : ℚ) (inp : Input) (s : GameSt) :
    (gameUpdate dt inp s).playerMarked = s.playerMarked ∧
    (gameUpdate dt inp s).gameState =
      (if inp.escapeDown then GState.paused
       else if s.playerMarked then GState.gameOver else s.gameState) ∧
    (gameUpdate dt inp s).enginePaused =
      (if inp.escapeDown then true else s.enginePaused) := by
  obtain ⟨h1, h2, h3⟩ := updateWaveLogic_control dt s
  obtain ⟨h4, h5, h6⟩ := updatePickupSpawning_control dt (updateWaveLogic dt s)
  unfold gameUpdate gameDeathCheck gamePauseCheck
  by_cases hesc : inp.escapeDown <;> by_cases hm : s.playerMarked <;>
    simp [hesc, hm, h1, h2, h3, h4, h5, h6]

/-- Invariant of the restart paths: in `playing` or `paused` the player is
not marked (a restart always installs a fresh player). -/
def PInv (s : GameSt) : Prop :=
  (s.gameState = GState.playing ∨ s.gameState = GState.paused) → s.playerMarked = false

theorem startGame_control (s : GameSt) :
    (startGame s).playerMarked = false ∧ (startGame s).gameState = GState.playing :=
  ⟨rfl, rfl⟩

theorem engineStep_of_paused (dt : ℚ) (inp : Input) (s : GameSt)
    (hep : s.enginePaused = true) : engineStep dt inp s = s := by
  unfold engineStep engineFrame
  simp [hep]

theorem engineStep_of_running (dt : ℚ) (inp : Input) (s : GameSt)
    (hep : s.enginePaused = false) :
    engineStep dt inp s = (gameLoopDispatch dt inp s).1 := by
  unfold engineStep engineFrame
  simp [hep]

theorem gameLoopDispatch_loading (dt : ℚ) (inp : Input) (s : GameSt)
    (h : s.gameState = GState.loading) :
    gameLoopDispatch dt inp s = (s, ⟨true, false, false⟩) := by
  unfold gameLoopDispatch
  rw [h]

theorem gameLoopDispatch_title (dt : ℚ) (inp : Input) (s : GameSt)
    (h : s.gameState = GState.title) :
    gameLoopDispatch dt inp s = (handleTitleScreenInput inp s, ⟨true, false, false⟩) := by
  unfold gameLoopDispatch
  rw [h]

theorem gameLoopDispatch_playing (dt : ℚ) (inp : Input) (s : GameSt)
    (h : s.gameState = GState.playing) :
    gameLoopDispatch dt inp s = (gameUpdate dt inp s, ⟨true, false, false⟩) := by
  unfold gameLoopDispatch
  rw [h]

theorem gameLoopDispatch_paused (dt : ℚ) (inp : Input) (s : GameSt)
    (h : s.gameState = GState.paused) :
    gameLoopDispatch dt inp s = (handlePauseScreenInput inp s, ⟨true, true, true⟩) := by
  unfold gameLoopDispatch
  rw [h]

theorem gameLoopDispatch_gameOver (dt : ℚ) (inp : Input) (s : GameSt)
    (h : s.gameState = GState.gameOver) :
    gameLoopDispatch dt inp s = (handleGameOverScreenInput inp s, ⟨true, false, false⟩) := by
  unfold gameLoopDispatch
  rw [h]

theorem pinv_step (dt : ℚ) (inp : Input) (s : GameSt) (h : PInv s) :
    PInv (engineStep dt inp s) := by
  by_cases hep : s.enginePaused
  · rw [engineStep_of_paused dt inp s hep]; exact h
  · simp only [Bool.not_eq_true] at hep
    rw [engineStep_of_running dt inp s hep]
    cases hgs : s.gameState
    · rw [gameLoopDispatch_loading dt inp s hgs]; exact h
    · rw [gameLoopDispatch_title dt inp s hgs]
      unfold handleTitleScreenInput
      split
      · intro _; exact (startGame_control s).1
      · exact h
    · rw [gameLoopDispatch_playing dt inp s hgs]
      have hm : s.playerMarked = false := h (Or.inl hgs)
      intro _
      exact (gameUpdate_control dt inp s).1.trans hm
    · rw [gameLoopDispatch_paused dt inp s hgs]
      have hm : s.playerMarked = false := h (Or.inr hgs)
      unfold handlePauseScreenInput
      split
      · intro _; exact hm
      · split
        · intro _; exact (startGame_control s).1
        · exact h
    · rw [gameLoopDispatch_gameOver dt inp s hgs]
      unfold handleGameOverScreenInput
      split
      · intro _; exact (startGame_control s).1
      · exact h

theorem engineStep_playing_unmarked (dt : ℚ) (inp : Input) (s : GameSt)
    (hgs : s.gameState = GState.playing) (hm : s.playerMarked = false) :
    (engineStep dt inp s).gameState = GState.playing ∨
    (engineStep dt inp s).gameState = GState.paused := by
  by_cases hep : s.enginePaused
  · rw [engineStep_of_paused dt inp s hep, hgs]; exact Or.inl rfl
  · simp only [Bool.not_eq_true] at hep
    rw [engineStep_of_running dt inp s hep, gameLoopDispatch_playing dt inp s hgs]
    show (gameUpdate dt inp s).gameState = GState.playing ∨
      (gameUpdate dt inp s).gameState = GState.paused
    rw [(gameUpdate_control dt inp s).2.1]
    by_cases hesc : inp.escapeDown <;> simp [hesc, hm, hgs]

theorem countPGRun_zero : ∀ (l : List (ℚ × Input)) (s : GameSt), PInv s →
    countPGRun s l = 0 := by
  intro l
  induction l with
  | nil => intro s _; rfl
  | cons x rest ih =>
    intro s h
    obtain ⟨dt, inp⟩ := x
    have h2 : countPGRun (engineStep dt inp s) rest = 0 := ih _ (pinv_step dt inp s h)
    unfold countPGRun
    rw [h2]
    by_cases hgs : s.gameState = GState.playing
    · have hm := h (Or.inl hgs)
      rcases engineStep_playing_unmarked dt inp s hgs hm with h3 | h3 <;> simp [h3]
    · simp [hgs]

theorem applyPOps_maxHealth (ops : List POp) : ∀ p : Player,
    (applyPOps p ops).maxHealth = p.maxHealth := by
  induction ops with
  | nil => intro p; rfl
  | cons op rest ih =>
    intro p
    cases op
    · exact (ih _).trans rfl
    · exact (ih _).trans rfl

theorem applyPOps_health_bounds (ops : List POp) : ∀ p : Player,
    0 ≤ p.health → p.health ≤ p.maxHealth → (∀ op ∈ ops, 0 ≤ op.amount) →
    0 ≤ (applyPOps p ops).health ∧
    (applyPOps p ops).health ≤ (applyPOps p ops).maxHealth := by
  induction ops with
  | nil => intro p h0 h1 _; exact ⟨h0, h1⟩
  | cons op rest ih =>
    intro p h0 h1 hops
    have hop : 0 ≤ op.amount := hops op (List.mem_cons_self _ _)
    have hrest : ∀ o ∈ rest, 0 ≤ o.amount := fun o ho => hops o (List.mem_cons_of_mem _ ho)
    cases op with
    | damage q =>
      refine ih (p.takeDamage q) ?_ ?_ hrest
      · exact le_max_left 0 _
      · show max 0 (p.health - q) ≤ p.maxHealth
        have hq : 0 ≤ q := hop
        have : p.health - q ≤ p.maxHealth := by linarith
        exact max_le (le_trans h0 h1) this
    | heal q =>
      refine ih (p.heal q) ?_ ?_ hrest
      · show 0 ≤ min p.maxHealth (p.health + q)
        have hq : 0 ≤ q := hop
        exact le_min (le_trans h0 h1) (by linarith)
      · exact min_le_left _ _

theorem zombiesPerWave_eq (w : ℕ) : zombiesPerWave w = 5 + 2 * (w : ℤ) := by
  unfold zombiesPerWave
  have h : ((5 : ℚ) + w * 2) = ((5 + 2 * w : ℕ) : ℚ) := by push_cast; ring
  rw [h, Int.floor_natCast]
  push_cast
  ring

theorem startWave_zombiesRemaining (s : GameSt) :
    (startWave s).zombiesRemaining = 5 + 2 * s.wave := by
  show (zombiesPerWave s.wave).toNat = 5 + 2 * s.wave
  rw [zombiesPerWave_eq]
  omega

theorem waveLogic_spawn (dt : ℚ) (s : GameSt) (hrem : 0 < s.zombiesRemaining)
    (hcd : ¬ 0 < s.spawnCooldown) :
    updateWaveLogic dt s =
      { s with spawned := s.spawned + 1,
               zombiesRemaining := s.zombiesRemaining - 1,
               spawnCooldown := 3/2 - min (13/10) ((s.wave : ℚ) * (1/10)) } := by
  unfold updateWaveLogic updateZombieSpawning
  rw [if_neg (by omega), if_neg hcd, if_pos hrem]

theorem waveLogic_tick (dt : ℚ) (s : GameSt) (hrem : s.zombiesRemaining ≠ 0)
    (hcd : 0 < s.spawnCooldown) :
    updateWaveLogic dt s = { s with spawnCooldown := s.spawnCooldown - dt } := by
  unfold updateWaveLogic updateZombieSpawning
  rw [if_neg hrem, if_pos hcd]

theorem waveLogic_timer (dt : ℚ) (s : GameSt) (hrem : s.zombiesRemaining = 0)
    (ht : ¬ waveDelay ≤ s.waveTimer + dt) :
    updateWaveLogic dt s = { s with waveTimer := s.waveTimer + dt } := by
  unfold updateWaveLogic
  rw [if_pos hrem, if_neg ht]

theorem waveLogic_advance (dt : ℚ) (s : GameSt) (hrem : s.zombiesRemaining = 0)
    (ht : waveDelay ≤ s.waveTimer + dt) :
    updateWaveLogic dt s =
      { startWave { s with wave := s.wave + 1, waveTimer := s.waveTimer + dt } with
        waveTimer := 0 } := by
  unfold updateWaveLogic
  rw [if_pos hrem, if_pos ht]

theorem engineUpdatePass_ids {α : Type} (collide : List (EEnt α) → List (EEnt α))
    (upd : EEnt α → EEnt α)
    (hupd_id : ∀ x : EEnt α, (upd x).id = x.id)
    (hcollide_ids : ∀ l : List (EEnt α), ∀ y ∈ collide l, y.id ∈ l.map EEnt.id)
    (l : List (EEnt α)) :
    ∀ x ∈ engineUpdatePass collide upd l, x.id ∈ l.map EEnt.id := by
  intro x hx
  unfold engineUpdatePass at hx
  obtain ⟨hx1, _⟩ := List.mem_filter.mp hx
  obtain ⟨y, hy, rfl⟩ := List.mem_map.mp hx1
  rw [hupd_id y]
  exact hcollide_ids l y hy

/-- Per-wave conservation: either still in wave `w` with the spawn counter
and the remaining count summing to the wave's total, or the wave has
advanced. -/
def WQ (w : ℕ) (s : GameSt) : Prop :=
  (s.wave = w ∧ s.spawned + s.zombiesRemaining = 5 + 2 * w) ∨ w < s.wave

theorem wq_step (dt : ℚ) (w : ℕ) (s : GameSt) (h : WQ w s) :
    WQ w (updateWaveLogic dt s) := by
  by_cases hrem : s.zombiesRemaining = 0
  · by_cases ht : waveDelay ≤ s.waveTimer + dt
    · rw [waveLogic_advance dt s hrem ht]
      right
      show w < s.wave + 1
      rcases h with ⟨hw, _⟩ | hw <;> omega
    · rw [waveLogic_timer dt s hrem ht]
      exact h
  · by_cases hcd : 0 < s.spawnCooldown
    · rw [waveLogic_tick dt s hrem hcd]
      exact h
    · rw [waveLogic_spawn dt s (by omega) hcd]
      rcases h with ⟨hw, hsum⟩ | hw
      · left
        refine ⟨hw, ?_⟩
        show s.spawned + 1 + (s.zombiesRemaining - 1) = 5 + 2 * w
        omega
      · right
        exact hw

theorem wq_run (w : ℕ) : ∀ (l : List ℚ) (s : GameSt), WQ w s → WQ w (runWave s l) := by
  intro l
  induction l with
  | nil => intro s h; exact h
  | cons dt rest ih => intro s h; exact ih _ (wq_step dt w s h)

theorem collideInner_mem (h : ℕ → ℕ → List Rect → List Rect) (n i : ℕ) :
    ∀ (k j : ℕ), n - j ≤ k → ∀ (rs : List Rect), ∀ p ∈ (collideInner h n i rs j).2,
      (p.1 = i ∧ j ≤ p.2 ∧ p.2 < n) ∨ (p.2 = i ∧ j ≤ p.1 ∧ p.1 < n) := by
  intro k
  induction k with
  | zero =>
    intro j hk rs p hp
    rw [collideInner] at hp
    have hjn : ¬ j < n := by omega
    simp [hjn] at hp
  | succ k ih =>
    intro j hk rs p hp
    rw [collideInner] at hp
    by_cases hjn : j < n
    · rw [if_pos hjn] at hp
      by_cases hc : isColliding (rs.getD i default) (rs.getD j default) = true
      · rw [if_pos hc] at hp
        simp only [List.mem_cons] at hp
        rcases hp with rfl | rfl | hp
        · exact Or.inl ⟨rfl, le_refl j, hjn⟩
        · exact Or.inr ⟨rfl, le_refl j, hjn⟩
        · rcases ih (j + 1) (by omega) _ p hp with ⟨h1, h2, h3⟩ | ⟨h1, h2, h3⟩
          · exact Or.inl ⟨h1, by omega, h3⟩
          · exact Or.inr ⟨h1, by omega, h3⟩
      · rw [if_neg hc] at hp
        rcases ih (j + 1) (by omega) rs p hp with ⟨h1, h2, h3⟩ | ⟨h1, h2, h3⟩
        · exact Or.inl ⟨h1, by omega, h3⟩
        · exact Or.inr ⟨h1, by omega, h3⟩
    · rw [if_neg hjn] at hp
      simp at hp

theorem collideInner_count (h : ℕ → ℕ → List Rect → List Rect) (n i : ℕ) :
    ∀ (k j : ℕ), n - j ≤ k → i < j → ∀ (rs : List Rect) (a b : ℕ),
      ((collideInner h n i rs j).2.count (a, b) ≤ 1) ∧
      ((collideInner h n i rs j).2.count (a, b) =
        (collideInner h n i rs j).2.count (b, a)) := by
  intro k
  induction k with
  | zero =>
    intro j hk hij rs a b
    rw [collideInner]
    have hjn : ¬ j < n := by omega
    simp [hjn]
  | succ k ih =>
    intro j hk hij rs a b
    rw [collideInner]
    by_cases hjn : j < n
    · rw [if_pos hjn]
      by_cases hc : isColliding (rs.getD i default) (rs.getD j default) = true
      · rw [if_pos hc]
        have hne : i ≠ j := Nat.ne_of_lt hij
        have hij_tail : (i, j) ∉ (collideInner h n i (h i j rs) (j + 1)).2 := by
          intro hmem
          rcases collideInner_mem h n i (n - (j + 1)) (j + 1) (le_refl _) _ _ hmem with
            ⟨_, h2, _⟩ | ⟨h1, _, _⟩
          · omega
          · exact hne (by simpa using h1.symm)
        have hji_tail : (j, i) ∉ (collideInner h n i (h i j rs) (j + 1)).2 := by
          intro hmem
          rcases collideInner_mem h n i (n - (j + 1)) (j + 1) (le_refl _) _ _ hmem with
            ⟨h1, _, _⟩ | ⟨_, h2, _⟩
          · exact hne (by simpa using h1.symm)
          · omega
        have hcount_ij : (collideInner h n i (h i j rs) (j + 1)).2.count (i, j) = 0 :=
          List.count_eq_zero.mpr hij_tail
        have hcount_ji : (collideInner h n i (h i j rs) (j + 1)).2.count (j, i) = 0 :=
          List.count_eq_zero.mpr hji_tail
        have hijji : ((i, j) : ℕ × ℕ) ≠ (j, i) := by
          intro hcontra
          exact hne (congrArg Prod.fst hcontra)
        obtain ⟨iht, ihs⟩ := ih (j + 1) (by omega) (by omega) (h i j rs) a b
        by_cases hab : (a, b) = ((i, j) : ℕ × ℕ)
        · injection hab with ha hb
          subst ha
          subst hb
          rw [List.count_cons_self, List.count_cons_of_ne hijji, hcount_ij,
            List.count_cons_of_ne (Ne.symm hijji), List.count_cons_self, hcount_ji]
          exact ⟨by norm_num, rfl⟩
        · by_cases hab' : (a, b) = ((j, i) : ℕ × ℕ)
          · injection hab' with ha hb
            subst ha
            subst hb
            rw [List.count_cons_of_ne (Ne.symm hijji), List.count_cons_self, hcount_ji,
              List.count_cons_self, List.count_cons_of_ne hijji, hcount_ij]
            exact ⟨by norm_num, rfl⟩
          · have hba : ((b, a) : ℕ × ℕ) ≠ (i, j) := by
              intro hcontra
              apply hab'
              rw [Prod.ext_iff] at hcontra ⊢
              exact ⟨hcontra.2, hcontra.1⟩
            have hba' : ((b, a) : ℕ × ℕ) ≠ (j, i) := by
              intro hcontra
              apply hab
              rw [Prod.ext_iff] at hcontra ⊢
              exact ⟨hcontra.2, hcontra.1⟩
            rw [List.count_cons_of_ne hab, List.count_cons_of_ne hab',
              List.count_cons_of_ne hba, List.count_cons_of_ne hba']
            exact ⟨iht, ihs⟩
      · rw [if_neg hc]
        exact ih (j + 1) (by omega) (by omega) rs a b
    · rw [if_neg hjn]
      simp



theorem collideOuter_mem (h : ℕ → ℕ → List Rect → List Rect) (n : ℕ) :
    ∀ (k i : ℕ), n - i ≤ k → ∀ (rs : List Rect), ∀ p ∈ (collideOuter h n rs i).2,
      i ≤ p.1 ∧ i ≤ p.2 ∧ p.1 ≠ p.2 ∧ p.1 < n ∧ p.2 < n := by
  intro k
  induction k with
  | zero =>
    intro i hk rs p hp
    rw [collideOuter] at hp
    have hin : ¬ i < n := by omega
    simp [hin] at hp
  | succ k ih =>
    intro i hk rs p hp
    rw [collideOuter] at hp
    by_cases hin : i < n
    · rw [if_pos hin] at hp
      simp only [List.mem_append] at hp
      rcases hp with hp | hp
      · rcases collideInner_mem h n i (n - (i + 1)) (i + 1) (le_refl _) rs p hp with
          ⟨h1, h2, h3⟩ | ⟨h1, h2, h3⟩
        · exact ⟨by omega, by omega, by omega, by omega, h3⟩
        · exact ⟨by omega, by omega, by omega, h3, by omega⟩
      · obtain ⟨g1, g2, g3, g4, g5⟩ := ih (i + 1) (by omega) _ p hp
        exact ⟨by omega, by omega, g3, g4, g5⟩
    · rw [if_neg hin] at hp
      simp at hp

theorem collideOuter_count (h : ℕ → ℕ → List Rect → List Rect) (n : ℕ) :
    ∀ (k i : ℕ), n - i ≤ k → ∀ (rs : List Rect) (a b : ℕ),
      ((collideOuter h n rs i).2.count (a, b) ≤ 1) ∧
      ((collideOuter h n rs i).2.count (a, b) =
        (collideOuter h n rs i).2.count (b, a)) := by
  intro k
  induction k with
  | zero =>
    intro i hk rs a b
    rw [collideOuter]
    have hin : ¬ i < n := by omega
    simp [hin]
  | succ k ih =>
    intro i hk rs a b
    rw [collideOuter]
    by_cases hin : i < n
    · rw [if_pos hin]
      simp only [List.count_append]
      by_cases htouch : a = i ∨ b = i
      · have hout_ab :
            (collideOuter h n (collideInner h n i rs (i + 1)).1 (i + 1)).2.count (a, b) = 0 := by
          refine List.count_eq_zero.mpr ?_
          intro hmem
          obtain ⟨g1, g2, _, _, _⟩ := collideOuter_mem h n (n - (i + 1)) (i + 1)
            (le_refl _) _ _ hmem
          rcases htouch with rfl | rfl <;> omega
        have hout_ba :
            (collideOuter h n (collideInner h n i rs (i + 1)).1 (i + 1)).2.count (b, a) = 0 := by
          refine List.count_eq_zero.mpr ?_
          intro hmem
          obtain ⟨g1, g2, _, _, _⟩ := collideOuter_mem h n (n - (i + 1)) (i + 1)
            (le_refl _) _ _ hmem
          rcases htouch with rfl | rfl <;> omega
        rw [hout_ab, hout_ba]
        obtain ⟨t1, t2⟩ := collideInner_count h n i (n - (i + 1)) (i + 1) (le_refl _)
          (by omega) rs a b
        exact ⟨by omega, by omega⟩
      · push_neg at htouch
        have hin_ab : (collideInner h n i rs (i + 1)).2.count (a, b) = 0 := by
          refine List.count_eq_zero.mpr ?_
          intro hmem
          rcases collideInner_mem h n i (n - (i + 1)) (i + 1) (le_refl _) rs _ hmem with
            ⟨h1, _, _⟩ | ⟨h1, _, _⟩
          · exact htouch.1 (by simpa using h1)
          · exact htouch.2 (by simpa using h1)
        have hin_ba : (collideInner h n i rs (i + 1)).2.count (b, a) = 0 := by
          refine List.count_eq_zero.mpr ?_
          intro hmem
          rcases collideInner_mem h n i (n - (i + 1)) (i + 1) (le_refl _) rs _ hmem with
            ⟨h1, _, _⟩ | ⟨h1, _, _⟩
          · exact htouch.2 (by simpa using h1)
          · exact htouch.1 (by simpa using h1)
        rw [hin_ab, hin_ba]
        obtain ⟨t1, t2⟩ := ih (i + 1) (by omega) (collideInner h n i rs (i + 1)).1 a b
        exact ⟨by omega, by omega⟩
    · rw [if_neg hin]
      simp



theorem collideInner_fst_pure (n i : ℕ) :
    ∀ (k j : ℕ), n - j ≤ k → ∀ (rs : List Rect),
      (collideInner pureHandlers n i rs j).1 = rs := by
  intro k
  induction k with
  | zero =>
    intro j hk rs
    rw [collideInner]
    have hjn : ¬ j < n := by omega
    simp [hjn]
  | succ k ih =>
    intro j hk rs
    rw [collideInner]
    by_cases hjn : j < n
    · rw [if_pos hjn]
      by_cases hc : isColliding (rs.getD i default) (rs.getD j default) = true
      · rw [if_pos hc]
        exact ih (j + 1) (by omega) rs
      · rw [if_neg hc]
        exact ih (j + 1) (by omega) rs
    · rw [if_neg hjn]

theorem collideInner_count_pure (n i : ℕ) :
    ∀ (k j : ℕ), n - j ≤ k → i < j → ∀ (rs : List Rect) (m : ℕ),
      (collideInner pureHandlers n i rs j).2.count (i, m) =
        if j ≤ m ∧ m < n ∧ isColliding (rs.getD i default) (rs.getD m default) = true
        then 1 else 0 := by
  intro k
  induction k with
  | zero =>
    intro j hk hij rs m
    rw [collideInner]
    have hjn : ¬ j < n := by omega
    rw [if_neg hjn, if_neg (by omega)]
    rfl
  | succ k ih =>
    intro j hk hij rs m
    rw [collideInner]
    by_cases hjn : j < n
    · rw [if_pos hjn]
      by_cases hc : isColliding (rs.getD i default) (rs.getD j default) = true
      · rw [if_pos hc]
        show ((i, j) :: (j, i) :: (collideInner pureHandlers n i rs (j + 1)).2).count (i, m) = _
        by_cases hm : m = j
        · subst hm
          rw [List.count_cons_self,
            List.count_cons_of_ne (by intro hcontra; injection hcontra with h1 _; omega),
            ih (m + 1) (by omega) (by omega) rs m, if_neg (by omega),
            if_pos ⟨le_refl m, hjn, hc⟩]
        · rw [List.count_cons_of_ne (by intro hcontra; injection hcontra with _ h2; omega),
            List.count_cons_of_ne (by intro hcontra; injection hcontra with h1 _; omega),
            ih (j + 1) (by omega) (by omega) rs m]
          by_cases hcond : j + 1 ≤ m ∧ m < n ∧
              isColliding (rs.getD i default) (rs.getD m default) = true
          · rw [if_pos hcond, if_pos ⟨by omega, hcond.2⟩]
          · rw [if_neg hcond, if_neg ?_]
            intro hcontra
            exact hcond ⟨by omega, hcontra.2⟩
      · rw [if_neg hc]
        rw [ih (j + 1) (by omega) (by omega) rs m]
        by_cases hm : m = j
        · rw [if_neg (by omega), if_neg ?_]
          intro hcontra
          rw [hm] at hcontra
          exact hc hcontra.2.2
        · by_cases hcond : j + 1 ≤ m ∧ m < n ∧
              isColliding (rs.getD i default) (rs.getD m default) = true
          · rw [if_pos hcond, if_pos ⟨by omega, hcond.2⟩]
          · rw [if_neg hcond, if_neg ?_]
            intro hcontra
            exact hcond ⟨by omega, hcontra.2⟩
    · rw [if_neg hjn, if_neg (by omega)]
      rfl



theorem isColliding_symm (a b : Rect) : isColliding a b = isColliding b a := by
  unfold isColliding
  rw [Bool.eq_iff_iff]
  simp only [Bool.and_eq_true, decide_eq_true_eq, gt_iff_lt]
  tauto

theorem collideOuter_count_pure (n : ℕ) :
    ∀ (k i : ℕ), n - i ≤ k → ∀ (rs : List Rect) (a b : ℕ), i ≤ a → a < b →
      (collideOuter pureHandlers n rs i).2.count (a, b) =
        if b < n ∧ isColliding (rs.getD a default) (rs.getD b default) = true
        then 1 else 0 := by
  intro k
  induction k with
  | zero =>
    intro i hk rs a b hia hab
    rw [collideOuter]
    have hin : ¬ i < n := by omega
    rw [if_neg hin, if_neg (by intro hcontra; omega)]
    rfl
  | succ k ih =>
    intro i hk rs a b hia hab
    rw [collideOuter]
    by_cases hin : i < n
    · rw [if_pos hin]
      simp only [List.count_append]
      rw [collideInner_fst_pure n i (n - (i + 1)) (i + 1) (le_refl _) rs]
      by_cases ha : a = i
      · subst ha
        have hout : (collideOuter pureHandlers n rs (a + 1)).2.count (a, b) = 0 := by
          refine List.count_eq_zero.mpr ?_
          intro hmem
          obtain ⟨g1, _, _, _, _⟩ := collideOuter_mem pureHandlers n (n - (a + 1)) (a + 1)
            (le_refl _) _ _ hmem
          omega
        rw [hout, collideInner_count_pure n a (n - (a + 1)) (a + 1) (le_refl _)
          (by omega) rs b]
        by_cases hcond : b < n ∧ isColliding (rs.getD a default) (rs.getD b default) = true
        · rw [if_pos ⟨by omega, hcond.1, hcond.2⟩, if_pos hcond]
        · have hneg : ¬(a + 1 ≤ b ∧ b < n ∧
              isColliding (rs.getD a default) (rs.getD b default) = true) :=
            fun hcontra => hcond ⟨hcontra.2.1, hcontra.2.2⟩
          rw [if_neg hneg, if_neg hcond]
      · have hinner : (collideInner pureHandlers n i rs (i + 1)).2.count (a, b) = 0 := by
          refine List.count_eq_zero.mpr ?_
          intro hmem
          rcases collideInner_mem pureHandlers n i (n - (i + 1)) (i + 1) (le_refl _) rs _
            hmem with ⟨h1, _, _⟩ | ⟨h1, _, _⟩
          · exact ha (by simpa using h1)
          · have : b = i := by simpa using h1
            omega
        rw [hinner, ih (i + 1) (by omega) rs a b (by omega) hab]
        omega
    · rw [if_neg hin, if_neg (by intro hcontra; omega)]
      rfl

/-! ### Claims -/

/-- C1: the claim puts the tank roll (wave ≥ 5, r < 0.1) before the fast roll
(wave ≥ 3, r < 0.2) against one shared draw.  The source tests the fast guard
first, and its guard is implied by the tank guard, so at the claim's own
example point (wave 5, r = 0.05 < 0.1) the code spawns a fast zombie, and in
fact no wave and no draw can ever produce a tank. -/
theorem claim_C1 :
    spawnZombieType 5 (1/20) = ZombieType.fast ∧
    ∀ (w : ℕ) (r : ℚ), spawnZombieType w r ≠ ZombieType.tank := by
  constructor
  · norm_num [spawnZombieType]
  · intro w r
    unfold spawnZombieType
    split
    · simp
    · split
      · rename_i h1 h2
        exact absurd ⟨le_trans (by norm_num) h2.1, lt_trans h2.2 (by norm_num)⟩ h1
      · simp

/-- C2: the claim says a paused game still renders the pause screen and polls
input every frame, and Escape during a paused frame returns to `playing` and
resumes the engine.  In the source, entering `paused` also calls
`engine.pause()` (first conjunct), and `GameEngine.gameLoop` returns before
the patched update whenever the engine is paused (second conjunct): the whole
frame is the identity with an all-false log — no pause screen rendered, no
input polled, no transition even with Escape held — so once paused the game
can never reach `handlePauseScreenInput` and never resumes. -/
theorem claim_C2 :
    (∀ (dt : ℚ) (inp : Input) (s : GameSt), s.gameState = GState.playing →
       s.enginePaused = false → inp.escapeDown = true →
       (engineStep dt inp s).gameState = GState.paused ∧
       (engineStep dt inp s).enginePaused = true) ∧
    (∀ (dt : ℚ) (inp : Input) (s : GameSt), s.enginePaused = true →
       engineFrame dt inp s = (s, ⟨false, false, false⟩)) := by
  constructor
  · intro dt inp s hgs hep hesc
    rw [engineStep_of_running dt inp s hep, gameLoopDispatch_playing dt inp s hgs]
    show (gameUpdate dt inp s).gameState = GState.paused ∧
      (gameUpdate dt inp s).enginePaused = true
    obtain ⟨_, hg, he⟩ := gameUpdate_control dt inp s
    rw [hg, he]
    simp [hesc]
  · intro dt inp s hep
    unfold engineFrame
    simp [hep]

/-- C2 witness: pressing Escape while playing pauses game and engine; the
next frame, with Escape still held, is skipped entirely and stays paused. -/
theorem claim_C2_witness :
    ((engineStep 1 ⟨true, false⟩
        { gameState := GState.playing, enginePaused := false,
          playerMarked := false }).gameState = GState.paused ∧
     (engineStep 1 ⟨true, false⟩
        { gameState := GState.playing, enginePaused := false,
          playerMarked := false }).enginePaused = true) ∧
    engineFrame 1 ⟨true, false⟩
        { gameState := GState.paused, enginePaused := true, playerMarked := false } =
      ({ gameState := GState.paused, enginePaused := true, playerMarked := false },
       ⟨false, false, false⟩) :=
  ⟨claim_C2.1 1 ⟨true, false⟩ _ rfl rfl rfl, claim_C2.2 1 ⟨true, false⟩ _ rfl⟩

/-- C4: the rectangle overlap test of `GameEngine.isColliding` is symmetric;
in one `checkCollisions` pass — for any geometry side effects `h` the
handlers may apply — each ordered invocation `(a, b)` ("entity a received
`onCollision` with entity b") occurs at most once and exactly as often as its
mirror `(b, a)`; and with side-effect-free handlers the pair `(i, j)` of
distinct live indices produces the two invocations exactly when the two
rectangles overlap. -/
theorem claim_C4 :
    (∀ a b : Rect, isColliding a b = isColliding b a) ∧
    (∀ (h : ℕ → ℕ → List Rect → List Rect) (rs : List Rect) (a b : ℕ),
       ((checkCollisions h rs).2.count (a, b) ≤ 1) ∧
       ((checkCollisions h rs).2.count (a, b) = (checkCollisions h rs).2.count (b, a))) ∧
    (∀ (rs : List Rect) (i j : ℕ), i < j → j < rs.length →
       (checkCollisions pureHandlers rs).2.count (i, j) =
         if isColliding (rs.getD i default) (rs.getD j default) = true
         then 1 else 0) := by
  refine ⟨isColliding_symm, ?_, ?_⟩
  · intro h rs a b
    exact collideOuter_count h rs.length (rs.length - 0) 0 (le_refl _) rs a b
  · intro rs i j hij hjn
    show (collideOuter pureHandlers rs.length rs 0).2.count (i, j) = _
    rw [collideOuter_count_pure rs.length (rs.length - 0) 0 (le_refl _) rs i j
      (Nat.zero_le i) hij]
    by_cases hc : isColliding (rs.getD i default) (rs.getD j default) = true
    · rw [if_pos ⟨hjn, hc⟩, if_pos hc]
    · rw [if_neg (by intro hcontra; exact hc hcontra.2), if_neg hc]

/-- C4 witness: two overlapping 10x10 rectangles at (0,0) and (5,5): the test
is symmetric and their pair produces its invocation exactly per the overlap
test. -/
theorem claim_C4_witness :
    (isColliding ⟨0, 0, 10, 10⟩ ⟨5, 5, 10, 10⟩ =
      isColliding ⟨5, 5, 10, 10⟩ ⟨0, 0, 10, 10⟩) ∧
    ((checkCollisions pureHandlers [⟨0, 0, 10, 10⟩, ⟨5, 5, 10, 10⟩]).2.count (0, 1) =
      if isColliding (([⟨0, 0, 10, 10⟩, ⟨5, 5, 10, 10⟩] : List Rect).getD 0 default)
          (([⟨0, 0, 10, 10⟩, ⟨5, 5, 10, 10⟩] : List Rect).getD 1 default) = true
      then 1 else 0) :=
  ⟨claim_C4.1 _ _, claim_C4.2.2 [⟨0, 0, 10, 10⟩, ⟨5, 5, 10, 10⟩] 0 1 (by norm_num)
    (by norm_num)⟩

/-- C5: an entity marked during the collision phase still receives
`update(deltaTime)` in the same frame (the update pass maps `upd` over the
whole post-collision list), the prune pass — the frame's only removal point —
is exactly the filter dropping marked entities, every survivor is unmarked,
the marked entity is not among them, and (updates never unmark, updates
preserve object identity, the collision phase introduces no new identities,
identities distinct) its identity never appears in any later frame's
collision/update/render input. -/
theorem claim_C5 {α : Type} (collide : List (EEnt α) → List (EEnt α))
    (upd : EEnt α → EEnt α) (es : List (EEnt α)) (e : EEnt α)
    (hupd_mark : ∀ x : EEnt α, x.marked = true → (upd x).marked = true)
    (hupd_id : ∀ x : EEnt α, (upd x).id = x.id)
    (hcollide_ids : ∀ l : List (EEnt α), ∀ y ∈ collide l, y.id ∈ l.map EEnt.id)
    (hnodup : ((collide es).map EEnt.id).Nodup)
    (he : e ∈ collide es) (hm : e.marked = true) :
    (upd e ∈ (collide es).map upd) ∧
    (engineUpdatePass collide upd es =
      (((collide es).map upd).filter fun x => ! x.marked)) ∧
    (∀ x ∈ engineUpdatePass collide upd es, x.marked = false) ∧
    (upd e ∉ engineUpdatePass collide upd es) ∧
    (∀ k : ℕ, e.id ∉ ((engineUpdatePass collide upd)^[k]
        (engineUpdatePass collide upd es)).map EEnt.id) := by
  have hmark : (upd e).marked = true := hupd_mark e hm
  have hall : ∀ x ∈ engineUpdatePass collide upd es, x.marked = false := by
    intro x hx
    obtain ⟨_, hx2⟩ := List.mem_filter.mp hx
    simpa using hx2
  have hnot : upd e ∉ engineUpdatePass collide upd es := by
    intro hx
    rw [hall _ hx] at hmark
    exact Bool.false_ne_true hmark
  refine ⟨List.mem_map_of_mem upd he, rfl, hall, hnot, ?_⟩
  have hbase : e.id ∉ (engineUpdatePass collide upd es).map EEnt.id := by
    intro hx
    obtain ⟨x, hx1, hx2⟩ := List.mem_map.mp hx
    obtain ⟨hx3, hx4⟩ := List.mem_filter.mp hx1
    obtain ⟨y, hy, rfl⟩ := List.mem_map.mp hx3
    have hyid : y.id = e.id := by rw [← hupd_id y]; exact hx2
    have : y = e := List.inj_on_of_nodup_map hnodup hy he hyid
    subst this
    rw [hupd_mark y hm] at hx4
    simp at hx4
  intro k
  induction k with
  | zero => simpa using hbase
  | succ k ih =>
    rw [Function.iterate_succ_apply']
    intro hx
    obtain ⟨x, hx1, hx2⟩ := List.mem_map.mp hx
    have := engineUpdatePass_ids collide upd hupd_id hcollide_ids _ x hx1
    rw [hx2] at this
    exact ih this

/-- C5 witness: two live entities, a collision phase that marks both, the
identity update; the marked entity with id 0 is pruned and every survivor of
the frame is unmarked. -/
theorem claim_C5_witness :
    ((fun x => x) (⟨0, true, ()⟩ : EEnt Unit) ∉
       engineUpdatePass (fun l => l.map fun x => { x with marked := true })
         (fun x => x) [⟨0, false, ()⟩, ⟨1, false, ()⟩]) ∧
    (∀ x ∈ engineUpdatePass (fun l => l.map fun x => { x with marked := true })
         (fun x => x) [(⟨0, false, ()⟩ : EEnt Unit), ⟨1, false, ()⟩],
       x.marked = false) :=
  have h := claim_C5 (fun l => l.map fun x => { x with marked := true })
    (fun x => x) [⟨0, false, ()⟩, ⟨1, false, ()⟩] ⟨0, true, ()⟩
    (fun _ hx => hx) (fun _ => rfl)
    (by
      intro l y hy
      obtain ⟨x, hx, rfl⟩ := List.mem_map.mp hy
      show x.id ∈ l.map EEnt.id
      exact List.mem_map_of_mem _ hx)
    (by decide) (by decide) rfl
  ⟨h.2.2.2.1, h.2.2.1⟩

/-- C6: player health stays in [0, 100] under any sequence of `takeDamage` /
`heal` calls with nonnegative amounts from the initial 100; `takeDamage`
landing on health 0 marks the player for deletion; and a frame in `playing`
with the player marked (engine running, Escape up — Escape would override the
transition in the same frame) performs the `playing → gameOver` transition,
after which no further such transition occurs on the run: a restart installs
an unmarked player, so the count over the whole run is exactly one. -/
theorem claim_C6 :
    (∀ (x y : ℚ) (ops : List POp), (∀ op ∈ ops, 0 ≤ op.amount) →
       0 ≤ (applyPOps (mkPlayer x y) ops).health ∧
       (applyPOps (mkPlayer x y) ops).health ≤ 100) ∧
    (∀ (p : Player) (a : ℚ),
       (p.takeDamage a).health = 0 → (p.takeDamage a).markedForDeletion = true) ∧
    (∀ (dt : ℚ) (inp : Input) (rest : List (ℚ × Input)) (s : GameSt),
       s.gameState = GState.playing → s.playerMarked = true → s.enginePaused = false →
       inp.escapeDown = false →
       countPGRun s ((dt, inp) :: rest) = 1) := by
  refine ⟨?_, ?_, ?_⟩
  · intro x y ops hops
    have h := applyPOps_health_bounds ops (mkPlayer x y) (by norm_num [mkPlayer])
      (by norm_num [mkPlayer]) hops
    rw [applyPOps_maxHealth ops (mkPlayer x y)] at h
    exact ⟨h.1, h.2⟩
  · intro p a hh
    unfold Player.takeDamage at hh ⊢
    simp only at hh ⊢
    rw [hh]
    simp
  · intro dt inp rest s hgs hm hep hesc
    have hstep : (engineStep dt inp s).gameState = GState.gameOver := by
      rw [engineStep_of_running dt inp s hep, gameLoopDispatch_playing dt inp s hgs]
      show (gameUpdate dt inp s).gameState = GState.gameOver
      rw [(gameUpdate_control dt inp s).2.1]
      simp [hesc, hm]
    have hpinv : PInv (engineStep dt inp s) := by
      intro hcontra
      rw [hstep] at hcontra
      rcases hcontra with h | h <;> exact absurd h (by simp)
    unfold countPGRun
    rw [countPGRun_zero rest _ hpinv, if_pos ⟨hgs, hstep⟩]

/-- C6 witness: 100 damage from full health lands on 0 within bounds and
marks the player; a playing frame with a marked player counts one
`playing → gameOver` transition. -/
theorem claim_C6_witness :
    (0 ≤ (applyPOps (mkPlayer 0 0) [POp.damage 100]).health ∧
     (applyPOps (mkPlayer 0 0) [POp.damage 100]).health ≤ 100) ∧
    ((mkPlayer 0 0).takeDamage 100).markedForDeletion = true ∧
    countPGRun
      { gameState := GState.playing, enginePaused := false, playerMarked := true }
      [(1, ⟨false, false⟩)] = 1 :=
  ⟨claim_C6.1 0 0 [POp.damage 100]
      (by intro op hop; simp at hop; subst hop; norm_num [POp.amount]),
   claim_C6.2.1 (mkPlayer 0 0) 100 (by norm_num [Player.takeDamage, mkPlayer]),
   claim_C6.2.2 1 ⟨false, false⟩ [] _ rfl rfl rfl rfl⟩

/-- C3 counterexample: a newly constructed `Player` has never switched
weapons, its current weapon is the pistol, and its first successful shot sets
the cooldown to the initializer value 0.2 — not the pistol's per-weapon value
0.4 the claim asserts. -/
theorem claim_C3_counterexample :
    (mkPlayer 0 0).weaponType = Weapon.pistol ∧
    (mkPlayer 0 0).canShoot = true ∧
    ((mkPlayer 0 0).shoot (fun _ => 1) (fun _ => 0) (fun _ => 0)).1.shootCooldown = 1/5 ∧
    (1/5 : ℚ) ≠ 2/5 :=
  ⟨rfl, rfl, rfl, by norm_num⟩

/-- C3 (amended): a successful `shoot` resets the cooldown to the player's
current `shootCooldownMax`; `switchWeapon` sets that field to 0.4 / 0.8 / 0.15
for pistol / shotgun / rifle, and nothing else changes it — but a newly
constructed player that has never switched still carries the initializer 0.2,
so only players that have switched at least once get the per-weapon values. -/
theorem claim_C3 :
    (∀ (p : Player) (cosF sinF : ℚ → ℚ) (rand : ℕ → ℚ), p.canShoot = true →
       (p.shoot cosF sinF rand).1.shootCooldown = p.shootCooldownMax) ∧
    (∀ (p : Player) (w : Weapon),
       (p.switchWeapon w).shootCooldownMax = weaponCooldownMax w ∧
       (p.switchWeapon w).weaponType = w) ∧
    weaponCooldownMax .pistol = 2/5 ∧ weaponCooldownMax .shotgun = 4/5 ∧
    weaponCooldownMax .rifle = 3/20 ∧
    (∀ x y : ℚ, (mkPlayer x y).shootCooldownMax = 1/5) ∧
    (∀ (p : Player) (cosF sinF : ℚ → ℚ) (rand : ℕ → ℚ),
       (p.shoot cosF sinF rand).1.shootCooldownMax = p.shootCooldownMax) ∧
    (∀ (p : Player) (dt : ℚ), (p.update dt).shootCooldownMax = p.shootCooldownMax) := by
  refine ⟨?_, fun p w => ⟨rfl, rfl⟩, rfl, rfl, rfl, fun x y => rfl, ?_, ?_⟩
  · intro p cosF sinF rand h
    unfold Player.shoot
    rw [h]
    cases hw : p.weaponType <;> simp [hw, setAmmo_shootCooldown]
  · intro p cosF sinF rand
    unfold Player.shoot
    by_cases h : p.canShoot = true
    · rw [h]
      cases hw : p.weaponType <;> simp [hw, setAmmo_shootCooldownMax]
    · simp only [Bool.not_eq_true] at h
      simp [h]
  · intro p dt
    unfold Player.update
    split <;> rfl

/-- C3 witness: a player that just switched to the shotgun shoots; the new
cooldown is its current `shootCooldownMax`, which the switch set to the
shotgun value. -/
theorem claim_C3_witness :
    (((mkPlayer 0 0).switchWeapon Weapon.shotgun).shoot
        (fun _ => 1) (fun _ => 0) (fun _ => 0)).1.shootCooldown =
      ((mkPlayer 0 0).switchWeapon Weapon.shotgun).shootCooldownMax ∧
    ((mkPlayer 0 0).switchWeapon Weapon.shotgun).shootCooldownMax =
      weaponCooldownMax Weapon.shotgun :=
  ⟨claim_C3.1 _ _ _ _ (by rfl), (claim_C3.2.1 (mkPlayer 0 0) Weapon.shotgun).1⟩

/-- C7: when the cooldown is still positive or the current weapon's ammo pool
is 0, `shoot` returns no bullets and the player is unchanged — cooldown not
reset, no ammo decremented. -/
theorem claim_C7 (p : Player) (cosF sinF : ℚ → ℚ) (rand : ℕ → ℚ)
    (h : 0 < p.shootCooldown ∨ p.ammoOf p.weaponType = Ammo.fin 0) :
    p.shoot cosF sinF rand = (p, []) := by
  have hcs : p.canShoot = false := by
    unfold Player.canShoot
    rcases h with h | h
    · simp [not_le.mpr h]
    · rw [h]; simp [Ammo.isPos]
  unfold Player.shoot
  simp [hcs]

/-- C7 witness: a player with cooldown 1 gets no bullets and is unchanged. -/
theorem claim_C7_witness :
    Player.shoot { mkPlayer 0 0 with shootCooldown := 1 }
        (fun _ => 1) (fun _ => 0) (fun _ => 0) =
      ({ mkPlayer 0 0 with shootCooldown := 1 }, []) :=
  claim_C7 _ _ _ _ (Or.inl (by norm_num [mkPlayer]))

/-- C8: a successful shotgun shot returns exactly the 5 pellets of the loop,
pellet `i` built from its own draw `rand i`, whose spread angle lies in
[-0.25, 0.25] for a draw in [0, 1); pistol and rifle return exactly one
bullet, the rifle's at 1.5 times the base bullet speed (750). -/
theorem claim_C8 (p : Player) (cosF sinF : ℚ → ℚ) (rand : ℕ → ℚ)
    (hshoot : p.canShoot = true) :
    (p.weaponType = Weapon.shotgun →
       (p.shoot cosF sinF rand).2 =
         (List.range 5).map (fun i => shotgunPellet p cosF sinF (rand i)) ∧
       (p.shoot cosF sinF rand).2.length = 5) ∧
    (p.weaponType = Weapon.pistol → (p.shoot cosF sinF rand).2.length = 1) ∧
    (p.weaponType = Weapon.rifle →
       (p.shoot cosF sinF rand).2.length = 1 ∧
       ∀ b ∈ (p.shoot cosF sinF rand).2,
         b.speed = bulletSpeed * (3/2) ∧ b.speed = 750) ∧
    (∀ r : ℚ, 0 ≤ r → r < 1 → -(1/4) ≤ spreadAngle r ∧ spreadAngle r ≤ 1/4) ∧
    (∀ r : ℚ, (shotgunPellet p cosF sinF r).dir =
       rotateDir p.direction (cosF (spreadAngle r)) (sinF (spreadAngle r))) := by
  refine ⟨?_, ?_, ?_, ?_, fun r => rfl⟩
  · intro hw
    unfold Player.shoot
    rw [hshoot]
    simp [hw]
  · intro hw
    unfold Player.shoot
    rw [hshoot]
    simp [hw]
  · intro hw
    unfold Player.shoot
    rw [hshoot]
    simp [hw]
    norm_num [bulletSpeed]
  · intro r h0 h1
    unfold spreadAngle
    constructor <;> linarith

/-- C8 witness: the freshly switched shotgun player fires 5 pellets, and the
draw 1/2 gives an in-range spread angle. -/
theorem claim_C8_witness :
    (((mkPlayer 0 0).switchWeapon Weapon.shotgun).shoot
        (fun _ => 1) (fun _ => 0) (fun _ => 1/2)).2.length = 5 ∧
    -(1/4 : ℚ) ≤ spreadAngle (1/2) ∧ spreadAngle (1/2) ≤ 1/4 :=
  have h := claim_C8 ((mkPlayer 0 0).switchWeapon Weapon.shotgun)
    (fun _ => 1) (fun _ => 0) (fun _ => 1/2) (by rfl)
  ⟨(h.1 rfl).2, h.2.2.2.1 (1/2) (by norm_num) (by norm_num)⟩

/-- C9: `startWave` sets the remaining count to `floor(5 + 2N)` = `5 + 2N`
(7 for wave 1, 15 for wave 5); along any run of the wave logic that is still
in the same wave, spawned + remaining is conserved at the wave total, so when
the count reaches 0 exactly `5 + 2N` zombies have been spawned; each spawn
happens exactly on a cooldown expiry and decrements the count by one, a
pending cooldown only ticks down, and with the count at 0 the inter-wave
timer accumulates. -/
theorem claim_C9 :
    (∀ s : GameSt, (startWave s).zombiesRemaining = 5 + 2 * s.wave) ∧
    (∀ s : GameSt, s.wave = 1 → (startWave s).zombiesRemaining = 7) ∧
    (∀ s : GameSt, s.wave = 5 → (startWave s).zombiesRemaining = 15) ∧
    (∀ (l : List ℚ) (s : GameSt), s.spawned = 0 →
       s.zombiesRemaining = 5 + 2 * s.wave → (runWave s l).wave = s.wave →
       (runWave s l).spawned + (runWave s l).zombiesRemaining = 5 + 2 * s.wave ∧
       ((runWave s l).zombiesRemaining = 0 →
         (runWave s l).spawned = 5 + 2 * s.wave)) ∧
    (∀ (dt : ℚ) (s : GameSt), 0 < s.zombiesRemaining → ¬ 0 < s.spawnCooldown →
       updateWaveLogic dt s =
         { s with spawned := s.spawned + 1,
                  zombiesRemaining := s.zombiesRemaining - 1,
                  spawnCooldown := 3/2 - min (13/10) ((s.wave : ℚ) * (1/10)) }) ∧
    (∀ (dt : ℚ) (s : GameSt), s.zombiesRemaining ≠ 0 → 0 < s.spawnCooldown →
       updateWaveLogic dt s = { s with spawnCooldown := s.spawnCooldown - dt }) ∧
    (∀ (dt : ℚ) (s : GameSt), s.zombiesRemaining = 0 → ¬ waveDelay ≤ s.waveTimer + dt →
       updateWaveLogic dt s = { s with waveTimer := s.waveTimer + dt }) := by
  refine ⟨startWave_zombiesRemaining, ?_, ?_, ?_, waveLogic_spawn, waveLogic_tick,
    waveLogic_timer⟩
  · intro s hw
    rw [startWave_zombiesRemaining, hw]
  · intro s hw
    rw [startWave_zombiesRemaining, hw]
  · intro l s hsp hrem hw
    have h0 : WQ s.wave s := Or.inl ⟨rfl, by omega⟩
    have h1 := wq_run s.wave l s h0
    rcases h1 with ⟨_, hsum⟩ | hlt
    · exact ⟨hsum, fun hz => by omega⟩
    · omega

/-- C9 witness: wave 1 starts with 7 remaining; two 2-second frames spawn one
zombie and then tick the cooldown, conserving spawned + remaining = 7; the
first frame is exactly the spawn step. -/
theorem claim_C9_witness :
    (startWave
      { gameState := GState.playing, enginePaused := false,
        playerMarked := false }).zombiesRemaining = 7 ∧
    ((runWave
        { gameState := GState.playing, enginePaused := false, playerMarked := false,
          wave := 1, zombiesRemaining := 7 } [2, 2]).spawned +
      (runWave
        { gameState := GState.playing, enginePaused := false, playerMarked := false,
          wave := 1, zombiesRemaining := 7 } [2, 2]).zombiesRemaining = 7) ∧
    updateWaveLogic 2
        { gameState := GState.playing, enginePaused := false, playerMarked := false,
          wave := 1, zombiesRemaining := 7 } =
      { gameState := GState.playing, enginePaused := false, playerMarked := false,
        wave := 1, zombiesRemaining := 6,
        spawnCooldown := 3/2 - min (13/10) ((1 : ℚ) * (1/10)), spawned := 1 } :=
  ⟨claim_C9.2.1 _ rfl,
   (claim_C9.2.2.2.1 [2, 2] _ rfl (by norm_num)
      (by norm_num [runWave, updateWaveLogic, updateZombieSpawning])).1,
   claim_C9.2.2.2.2.1 2 _ (by norm_num) (by norm_num)⟩

/-- C10: a zombie whose target reference is unset and whose attack cooldown
has expired, on collision with a player, deals no damage to that player (the
target stays unset, so `target?.takeDamage` hits nobody), yet its attack
cooldown is still reset to the maximum. -/
theorem claim_C10 (z : Zombie) (other : Player)
    (htarget : z.target = none) (hcd : z.attackCooldown ≤ 0) :
    (z.onCollisionPlayer other).2 = other ∧
    (z.onCollisionPlayer other).1.target = none ∧
    (z.onCollisionPlayer other).1.attackCooldown = z.attackCooldownMax := by
  unfold Zombie.onCollisionPlayer
  rw [if_pos hcd]
  exact ⟨rfl, by simp [htarget], rfl⟩

/-- C10 witness: a fresh normal zombie (target unset, cooldown 0) colliding
with a player. -/
theorem claim_C10_witness :
    ((mkZombie 0 0 ZombieType.normal).onCollisionPlayer (mkPlayer 5 5)).2 = mkPlayer 5 5 ∧
    ((mkZombie 0 0 ZombieType.normal).onCollisionPlayer (mkPlayer 5 5)).1.target = none ∧
    ((mkZombie 0 0 ZombieType.normal).onCollisionPlayer (mkPlayer 5 5)).1.attackCooldown =
      (mkZombie 0 0 ZombieType.normal).attackCooldownMax :=
  claim_C10 _ _ (by rfl) (by norm_num [mkZombie])

end ZombieShooter
